import Mathlib

/-!
Shallow embedding of the metrics pipeline of `src/streamlit_app.py`.

Python strings are modelled as `List Char`, dates as integer day numbers
(`ℤ`), prices and returns as exact rationals (`ℚ`); only quantities that the
source obtains from `numpy` square roots or floating-point powers live in `ℝ`.
A Python runtime exception inside the per-ticker block is modelled by
`Except PyErr`; the `try` in `main` wraps the whole ticker loop, which
`runBatch` reproduces.
-/

/-! ### Ticker input processing (`process_ticker_input`, lines 11-36) -/

/-- One character of a ticker is accepted when `char.isalnum()` holds or the
character is one of `^ = . -` (line 27). -/
def isValidTickerChar (c : Char) : Bool :=
  c.isAlphanum || c = '^' || c = '=' || c = '.' || c = '-'

/-- A ticker is accepted when every character is accepted (`all(...)`,
line 27); on the empty string the check is vacuously true. -/
def isValidTicker (t : List Char) : Bool :=
  t.all isValidTickerChar

/-- Python `str.strip()`: drop whitespace from both ends. -/
def pyStrip (s : List Char) : List Char :=
  ((s.dropWhile Char.isWhitespace).reverse.dropWhile Char.isWhitespace).reverse

/-- Python `str.upper()`, restricted to the character-wise map. -/
def pyUpper (s : List Char) : List Char :=
  s.map Char.toUpper

/-- Python `str.split(",")`: split at every comma, keeping empty pieces, so
`",,"` yields three empty tokens and `""` yields one empty token. -/
def pySplitComma : List Char → List (List Char)
  | [] => [[]]
  | c :: cs =>
    if c = ',' then [] :: pySplitComma cs
    else
      match pySplitComma cs with
      | [] => [[c]]
      | t :: ts => (c :: t) :: ts

/-- Lines 14-22: strip the input; if it contains a comma, split on commas and
strip-and-uppercase each piece, else take the single stripped input
uppercased. -/
def tickerTokens (input : List Char) : List (List Char) :=
  let s := pyStrip input
  if s.contains ',' then (pySplitComma s).map (fun t => pyUpper (pyStrip t))
  else [pyUpper s]

/-- Lines 24-32: partition the tokens into the returned valid tickers and the
tokens that only produce an `Invalid ticker format` warning. -/
def process_ticker_input (input : List Char) : List (List Char) × List (List Char) :=
  let tickers := tickerTokens input
  (tickers.filter isValidTicker, tickers.filter (fun t => ! isValidTicker t))

/-! ### Per-ticker metric computations (lines 237-295) -/

/-- Python exceptions that the per-ticker block of `main` can raise; all of
them are swallowed by the single `except Exception` at line 313. -/
inductive PyErr where
  | zeroDivision
  | typeError
  | keyError
deriving DecidableEq

/-- Model of `stock_prices.pct_change()` (line 237): a series of the same
length as the input, `NaN` (here `none`) at the first date and
`p[t]/p[t-1] - 1` afterwards. -/
def pct_change (ps : List ℚ) : List (Option ℚ) :=
  match ps with
  | [] => []
  | _ :: rest =>
    none :: (List.zipWith (fun prev cur => cur / prev - 1) ps rest).map some

/-- Line 246: elapsed seconds of the requested range divided by
`365.25 * 24 * 3600`. -/
def yearsOf (seconds : ℚ) : ℚ :=
  seconds / (365.25 * 24 * 3600)

/-- Lines 249-251: `((end_price / start_price) ** (1 / years)) - 1`.  The
prices are numpy float64 scalars from `Series.iloc`, so
`end_price / start_price` never raises — with `start_price == 0` numpy
produces an IEEE infinity and only a RuntimeWarning.  The sole exception is
`1 / years` with `years == 0`: `years` is a pure Python float and this raises
`ZeroDivisionError`.  Otherwise the float power is the real power.  The
exact-rational base makes the value meaningful only for a nonzero start
price (the rational convention `x / 0 = 0` stands in for the IEEE infinity);
no theorem relies on the value at a zero start price. -/
noncomputable def cagrOf (startPrice endPrice years : ℚ) : Except PyErr ℝ :=
  if years = 0 then .error .zeroDivision
  else .ok (((endPrice / startPrice : ℚ) : ℝ) ^ ((1 : ℝ) / (years : ℝ)) - 1)

/-- Applying `np.std` to a pandas series delegates to `Series.std` with
`ddof = 0`: population variance of the values that are not `NaN`. -/
def popVariance (xs : List ℚ) : ℚ :=
  (xs.map (fun x => (x - xs.sum / xs.length) ^ 2)).sum / xs.length

/-- Model of `np.std(stock_returns)`: the `NaN` entries are skipped, the
divisor is the count of remaining entries. -/
noncomputable def np_std (xs : List (Option ℚ)) : ℝ :=
  Real.sqrt ((popVariance xs.reduceOption : ℚ) : ℝ)

/-- Line 253: `np.std(stock_returns) * np.sqrt(252)`. -/
noncomputable def annualVolatility (returns : List (Option ℚ)) : ℝ :=
  np_std returns * Real.sqrt 252

/-- Helper for `cummax`: running maximum continued from an accumulator. -/
def cummaxAux (acc : ℚ) : List ℚ → List ℚ
  | [] => []
  | x :: xs => max acc x :: cummaxAux (max acc x) xs

/-- Model of `stock_prices.cummax()` (line 256). -/
def cummax : List ℚ → List ℚ
  | [] => []
  | x :: xs => x :: cummaxAux x xs

/-- Line 257: `(stock_prices / rolling_max) - 1`, elementwise. -/
def drawdownList (vals : List ℚ) : List ℚ :=
  List.zipWith (fun p m => p / m - 1) vals (cummax vals)

/-- The drawdown series carries the dates of the price series. -/
def drawdownSeries (ps : List (ℤ × ℚ)) : List (ℤ × ℚ) :=
  (ps.map Prod.fst).zip (drawdownList (ps.map Prod.snd))

/-- Helper for `seriesIdxmin`: fold keeping the current minimum, replacing it
only on a strictly smaller value, so the first occurrence wins. -/
def argminAux (best : ℤ × ℚ) : List (ℤ × ℚ) → ℤ × ℚ
  | [] => best
  | x :: xs => argminAux (if x.2 < best.2 then x else best) xs

/-- Lines 260-261: `drawdown.min()` together with `drawdown.idxmin()`, the
date of the first occurrence of the minimum; `none` on the empty series. -/
def seriesIdxmin : List (ℤ × ℚ) → Option (ℤ × ℚ)
  | [] => none
  | x :: xs => some (argminAux x xs)

/-- Label lookup `series[date]` on a date-indexed series. -/
def seriesLookup (s : List (ℤ × ℚ)) (d : ℤ) : Option ℚ :=
  (s.find? (fun q => q.1 = d)).map Prod.snd

/-- Lines 263-268: iterate over `stock_prices[max_drawdown_start:]` (all rows
whose date is `≥ max_drawdown_start`) and take the first date whose price is
`≥` the threshold `rolling_max[max_drawdown_start]`. -/
def recoveryDateOf (ps : List (ℤ × ℚ)) (ddDate : ℤ) (threshold : ℚ) : Option ℤ :=
  ((ps.filter (fun q => ddDate ≤ q.1)).find? (fun q => threshold ≤ q.2)).map Prod.fst

/-- The scalar results of one ticker (the `results[ticker]` dict of
lines 290-295). -/
structure MetricsReport where
  cagr : ℝ
  annualVolatility : ℝ
  maxDrawdown : ℚ
  recoveryMonths : ℚ

/-- Lines 290-295: building the results dict evaluates
`recovery_period / 30.22`; when `recovery_period` is `None` (no recovery
found) this is `None / 30.22` and Python raises `TypeError`. -/
def buildResults (cagr vol : ℝ) (maxDrawdown : ℚ) (recoveryPeriod : Option ℤ) :
    Except PyErr MetricsReport :=
  match recoveryPeriod with
  | none => .error .typeError
  | some d => .ok ⟨cagr, vol, maxDrawdown, (d : ℚ) / 30.22⟩

/-- The per-ticker pipeline of lines 237-295, for a non-empty fetched price
series: returns, CAGR, volatility, drawdown, max drawdown with its date, the
recovery scan, and the results dict. -/
noncomputable def computeMetrics (ps : List (ℤ × ℚ)) (years : ℚ) :
    Except PyErr MetricsReport :=
  let vals := ps.map Prod.snd
  let returns := pct_change vals
  match cagrOf vals.headI (vals.getLastD 0) years with
  | .error e => .error e
  | .ok cagr =>
    let vol := annualVolatility returns
    let rollingMax := cummax vals
    match seriesIdxmin (drawdownSeries ps) with
    | none => .error .typeError
    | some m =>
      match seriesLookup ((ps.map Prod.fst).zip rollingMax) m.1 with
      | none => .error .keyError
      | some threshold =>
        let recoveryDate := recoveryDateOf ps m.1 threshold
        buildResults cagr vol m.2 (recoveryDate.map (fun r => r - m.1))

/-! ### The batch loop of `main` (lines 225-314) -/

/-- What one run of the `try` block leaves behind: the reports rendered before
any exception, the per-ticker no-data warnings, and the exception caught by
the batch-wide handler if one was raised. -/
structure BatchOutcome where
  reports : List (List Char × MetricsReport)
  warnings : List (List Char)
  fatalError : Option PyErr

/-- Lines 225-314: the `for` loop over the tickers inside the single `try`.
A ticker with an empty fetched series produces a warning and `continue`
(lines 233-235); an exception while computing a ticker leaves the loop at
once, so the remaining tickers are never processed (lines 313-314). -/
noncomputable def runBatch (fetch : List Char → List (ℤ × ℚ)) (years : ℚ) :
    List (List Char) → BatchOutcome
  | [] => ⟨[], [], none⟩
  | t :: ts =>
    let prices := fetch t
    if prices.isEmpty then
      let r := runBatch fetch years ts
      ⟨r.reports, t :: r.warnings, r.fatalError⟩
    else
      match computeMetrics prices years with
      | .error e => ⟨[], [], some e⟩
      | .ok m =>
        let r := runBatch fetch years ts
        ⟨(t, m) :: r.reports, r.warnings, r.fatalError⟩

/-! ### Spec-side definitions used for comparison -/

/-- Population variance in the spec's sense, written as the mean of the
squares minus the square of the mean. -/
def spec_popVariance (xs : List ℚ) : ℚ :=
  (xs.map (fun x => x ^ 2)).sum / xs.length - (xs.sum / xs.length) ^ 2

/-- The spec's `computeAnnualizedVolatility`: population standard deviation of
the defined returns, annualized by `sqrt 252`. -/
noncomputable def spec_annualizedVolatility (definedReturns : List ℚ) : ℝ :=
  Real.sqrt ((spec_popVariance definedReturns : ℚ) : ℝ) * Real.sqrt 252

/-! ### Helper lemmas -/

/-- Splitting at `List.find?`: the found element is the first one satisfying
the test, everything to its left fails the test. -/
theorem find?_split {α : Type} (p : α → Bool) (l : List α) (a : α)
    (h : l.find? p = some a) :
    ∃ l₁ l₂, l = l₁ ++ a :: l₂ ∧ (∀ x ∈ l₁, p x = false) ∧ p a = true := by
  induction l with
  | nil => simp [List.find?] at h
  | cons x xs ih =>
    by_cases hx : p x
    · rw [List.find?_cons_of_pos _ hx] at h
      obtain rfl := Option.some.inj h
      exact ⟨[], xs, rfl, by simp, hx⟩
    · rw [List.find?_cons_of_neg _ hx] at h
      obtain ⟨l₁, l₂, rfl, h1, h2⟩ := ih h
      refine ⟨x :: l₁, l₂, rfl, ?_, h2⟩
      intro y hy
      rcases List.mem_cons.mp hy with rfl | hy
      · simpa using hx
      · exact h1 _ hy

/-- The fold of `seriesIdxmin` computes a global minimum and keeps the first
occurrence: every element strictly before the returned one is strictly
larger. -/
theorem argminAux_split (xs : List (ℤ × ℚ)) :
    ∀ best : ℤ × ℚ,
      (∀ q ∈ best :: xs, (argminAux best xs).2 ≤ q.2) ∧
      ∃ l₁ l₂, best :: xs = l₁ ++ argminAux best xs :: l₂ ∧
        ∀ q ∈ l₁, (argminAux best xs).2 < q.2 := by
  induction xs with
  | nil =>
    intro best
    exact ⟨by simp [argminAux], [], [], rfl, by simp⟩
  | cons x xs ih =>
    intro best
    by_cases hx : x.2 < best.2
    · have harg : argminAux best (x :: xs) = argminAux x xs := by
        simp [argminAux, hx]
      obtain ⟨hmin, l₁, l₂, heq, hlt⟩ := ih x
      have hr_le_x : (argminAux x xs).2 ≤ x.2 := hmin x (by simp)
      rw [harg]
      constructor
      · intro q hq
        rcases List.mem_cons.mp hq with rfl | hq
        · exact le_of_lt (lt_of_le_of_lt hr_le_x hx)
        · exact hmin q hq
      · refine ⟨best :: l₁, l₂, ?_, ?_⟩
        · rw [List.cons_append, ← heq]
        · intro q hq
          rcases List.mem_cons.mp hq with rfl | hq
          · exact lt_of_le_of_lt hr_le_x hx
          · exact hlt q hq
    · have harg : argminAux best (x :: xs) = argminAux best xs := by
        simp [argminAux, hx]
      obtain ⟨hmin, l₁, l₂, heq, hlt⟩ := ih best
      have hbx : best.2 ≤ x.2 := le_of_not_lt hx
      have hr_le_best : (argminAux best xs).2 ≤ best.2 := hmin best (by simp)
      rw [harg]
      constructor
      · intro q hq
        rcases List.mem_cons.mp hq with rfl | hq
        · exact hr_le_best
        · rcases List.mem_cons.mp hq with rfl | hq
          · exact le_trans hr_le_best hbx
          · exact hmin q (by simp [hq])
      · cases l₁ with
        | nil =>
          rw [List.nil_append] at heq
          injection heq with hb hxs
          refine ⟨[], x :: xs, ?_, by simp⟩
          rw [← hb]
          rfl
        | cons y l₁ =>
          rw [List.cons_append] at heq
          injection heq with hy hxs
          subst hy
          have hr_lt_best : (argminAux best xs).2 < best.2 := hlt best (by simp)
          refine ⟨best :: x :: l₁, l₂, ?_, ?_⟩
          · rw [List.cons_append, List.cons_append, ← hxs]
          · intro q hq
            rcases List.mem_cons.mp hq with rfl | hq
            · exact hr_lt_best
            · rcases List.mem_cons.mp hq with rfl | hq
              · exact lt_of_lt_of_le hr_lt_best hbx
              · exact hlt q (by simp [hq])

/-- Characterization of `drawdown.min()` with `drawdown.idxmin()`: the
returned pair is a global minimum of the series, and everything before it in
the series is strictly larger (first occurrence on ties). -/
theorem seriesIdxmin_spec (l : List (ℤ × ℚ)) (p : ℤ × ℚ)
    (h : seriesIdxmin l = some p) :
    (∀ q ∈ l, p.2 ≤ q.2) ∧ ∃ l₁ l₂, l = l₁ ++ p :: l₂ ∧ ∀ q ∈ l₁, p.2 < q.2 := by
  cases l with
  | nil => simp [seriesIdxmin] at h
  | cons x xs =>
    have hp : argminAux x xs = p := by simpa [seriesIdxmin] using h
    rw [← hp]
    exact argminAux_split xs x

/-- On a chain of non-decreasing values the running maximum continued from a
dominated accumulator is the list itself. -/
theorem cummaxAux_of_chain (xs : List ℚ) :
    ∀ acc : ℚ, List.Chain (· ≤ ·) acc xs → cummaxAux acc xs = xs := by
  induction xs with
  | nil => intro acc _; rfl
  | cons x xs ih =>
    intro acc hc
    rw [List.chain_cons] at hc
    simp only [cummaxAux, max_eq_right hc.1]
    rw [ih x hc.2]

/-- On a non-decreasing list `cummax` is the identity. -/
theorem cummax_of_chain' (vals : List ℚ) (h : List.Chain' (· ≤ ·) vals) :
    cummax vals = vals := by
  cases vals with
  | nil => rfl
  | cons x xs => simp only [cummax]; rw [cummaxAux_of_chain xs x h]

/-- On a non-decreasing positive price list every drawdown value is `0`. -/
theorem drawdownList_of_chain (vals : List ℚ) (hchain : List.Chain' (· ≤ ·) vals)
    (hpos : ∀ v ∈ vals, 0 < v) : ∀ d ∈ drawdownList vals, d = 0 := by
  intro d hd
  rw [drawdownList, cummax_of_chain' vals hchain, List.zipWith_same] at hd
  obtain ⟨x, hx, rfl⟩ := List.mem_map.mp hd
  rw [div_self (ne_of_gt (hpos x hx))]
  ring

/-- Every value of `(prices / rolling_max) - 1` along `cummaxAux` is `≤ 0`
when the accumulator and all prices are positive. -/
theorem zipWith_cummaxAux_nonpos (xs : List ℚ) :
    ∀ acc : ℚ, 0 < acc → (∀ x ∈ xs, 0 < x) →
      ∀ d ∈ List.zipWith (fun p m => p / m - 1) xs (cummaxAux acc xs), d ≤ 0 := by
  induction xs with
  | nil => simp
  | cons x xs ih =>
    intro acc hacc hpos d hd
    simp only [cummaxAux, List.zipWith_cons_cons, List.mem_cons] at hd
    rcases hd with rfl | hd
    · have hm : (0 : ℚ) < max acc x := lt_of_lt_of_le hacc (le_max_left _ _)
      have hx : x ≤ max acc x := le_max_right _ _
      have := (div_le_one hm).mpr hx
      linarith
    · exact ih (max acc x) (lt_of_lt_of_le hacc (le_max_left _ _))
        (fun y hy => hpos y (List.mem_cons_of_mem _ hy)) d hd

/-- Indexing `pct_change`: the entry after the first is the percentage change
of the two surrounding prices. -/
theorem pct_change_getElem? (ps : List ℚ) (i : ℕ) (a b : ℚ)
    (ha : ps[i]? = some a) (hb : ps[i + 1]? = some b) :
    (pct_change ps)[i + 1]? = some (some (b / a - 1)) := by
  cases ps with
  | nil => simp at ha
  | cons p rest =>
    have hb' : rest[i]? = some b := by simpa using hb
    show (none :: (List.zipWith (fun prev cur => cur / prev - 1) (p :: rest) rest).map some)[i + 1]? = _
    rw [List.getElem?_cons_succ, List.getElem?_map, List.getElem?_zipWith, ha, hb']
    rfl

/-- Expanding the sum of squared deviations about an arbitrary center. -/
theorem sum_sq_sub (xs : List ℚ) (c : ℚ) :
    (xs.map (fun x => (x - c) ^ 2)).sum =
      (xs.map (fun x => x ^ 2)).sum - 2 * c * xs.sum + xs.length * c ^ 2 := by
  induction xs with
  | nil => simp
  | cons x xs ih =>
    simp only [List.map_cons, List.sum_cons, List.length_cons, ih]
    push_cast
    ring

/-- The source's population variance (mean squared deviation) agrees with the
mean of squares minus the squared mean. -/
theorem popVariance_eq_spec (xs : List ℚ) (h : xs ≠ []) :
    popVariance xs = spec_popVariance xs := by
  have hn : (xs.length : ℚ) ≠ 0 := by
    exact_mod_cast Nat.pos_iff_ne_zero.mp (List.length_pos.mpr h)
  unfold popVariance spec_popVariance
  rw [sum_sq_sub]
  field_simp
  ring

/-- When every ticker whose fetched series is non-empty computes without an
exception, the batch runs to completion: no batch-level error, a warning for
exactly the no-data tickers, a report for exactly the others, in order. -/
theorem runBatch_no_failures (fetch : List Char → List (ℤ × ℚ)) (years : ℚ) :
    ∀ ts : List (List Char),
      (∀ t ∈ ts, fetch t ≠ [] → (computeMetrics (fetch t) years).isOk = true) →
      (runBatch fetch years ts).fatalError = none ∧
      (runBatch fetch years ts).warnings = ts.filter (fun t => (fetch t).isEmpty) ∧
      (runBatch fetch years ts).reports.map Prod.fst =
        ts.filter (fun t => !(fetch t).isEmpty) := by
  intro ts
  induction ts with
  | nil => intro _; exact ⟨rfl, rfl, rfl⟩
  | cons t ts ih =>
    intro h
    have ht := h t (List.mem_cons_self t ts)
    have hts := ih (fun u hu => h u (List.mem_cons_of_mem t hu))
    obtain ⟨h1, h2, h3⟩ := hts
    by_cases he : (fetch t).isEmpty
    · refine ⟨?_, ?_, ?_⟩ <;> simp [runBatch, he, h1, h2, h3]
    · have hne : fetch t ≠ [] := fun hc => he (by simp [hc])
      obtain ⟨m, hm⟩ : ∃ m, computeMetrics (fetch t) years = .ok m := by
        cases hcm : computeMetrics (fetch t) years with
        | error e => rw [hcm] at ht; simpa [Except.isOk, Except.toBool] using ht hne
        | ok m => exact ⟨m, rfl⟩
      refine ⟨?_, ?_, ?_⟩ <;> simp [runBatch, he, hm, h1, h2, h3]

/-- An exception while computing one ticker leaves the loop: nothing is
reported or warned for any later ticker, and the error becomes the single
batch-level message. -/
theorem runBatch_abort (fetch : List Char → List (ℤ × ℚ)) (years : ℚ)
    (t : List Char) (ts : List (List Char)) (e : PyErr)
    (hne : fetch t ≠ []) (herr : computeMetrics (fetch t) years = .error e) :
    runBatch fetch years (t :: ts) = ⟨[], [], some e⟩ := by
  have he : (fetch t).isEmpty = false := by
    cases hc : fetch t with
    | nil => exact absurd hc hne
    | cons x xs => rfl
  simp [runBatch, he, herr]

/-- Concrete evaluation: prices `100, 80` on days `0, 1` never recover (the
price never returns to the running maximum `100` seen at the max-drawdown
date), and the per-ticker block then raises `TypeError` on
`None / 30.22`. -/
theorem computeMetrics_unrecovered_eval :
    recoveryDateOf [(0, 100), (1, 80)] 1 100 = none ∧
    computeMetrics [(0, 100), (1, 80)] 2 = .error .typeError := by
  constructor
  · norm_num [recoveryDateOf, List.filter, List.find?]
  · norm_num [computeMetrics, cagrOf, seriesIdxmin, drawdownSeries, drawdownList,
      cummax, cummaxAux, argminAux, seriesLookup, List.find?, recoveryDateOf,
      List.filter, buildResults]

/-- Concrete evaluation: prices `100, 110` on days `0, 1` recover immediately
(the max drawdown is `0` at day `0`) and the per-ticker block succeeds. -/
theorem computeMetrics_recovered_eval :
    (computeMetrics [(0, 100), (1, 110)] 2).isOk = true := by
  norm_num [computeMetrics, cagrOf, seriesIdxmin, drawdownSeries, drawdownList,
    cummax, cummaxAux, argminAux, seriesLookup, List.find?, recoveryDateOf,
    List.filter, buildResults, Except.isOk, Except.toBool]

/-! ### Claims -/

/-- Fetch map for the batch counterexample: ticker `A` has data that never
recovers (so its per-ticker block raises), ticker `B` has data that computes
cleanly. -/
def fetchCX : List Char → List (ℤ × ℚ) := fun t =>
  if t = ['A'] then [(0, 100), (1, 80)]
  else if t = ['B'] then [(0, 100), (1, 110)] else []

/-- C1 counterexample: in the batch `["A", "B"]`, ticker `A` has data but its
computation raises (`None / 30.22`), and because the `try` wraps the whole
loop, valid ticker `B` — which has data and computes cleanly — is never
processed: the request ends with a batch-level error and no report at all,
a total failure despite a valid ticker with data. -/
theorem C1_counterexample :
    isValidTicker ['B'] = true ∧
    fetchCX ['B'] = [(0, 100), (1, 110)] ∧
    (runBatch fetchCX 2 [['A'], ['B']]).fatalError = some .typeError ∧
    (runBatch fetchCX 2 [['A'], ['B']]).reports = [] := by
  have hA : fetchCX ['A'] = [(0, 100), (1, 80)] := by simp [fetchCX]
  have habort := runBatch_abort fetchCX 2 ['A'] [['B']] .typeError
    (by rw [hA]; simp) (by rw [hA]; exact computeMetrics_unrecovered_eval.2)
  refine ⟨by decide, by simp [fetchCX], ?_, ?_⟩ <;> rw [habort]

/-- C1 (amended): no-data tickers are recovered locally — the loop warns and
continues, and when no per-ticker computation raises, the batch completes
with no fatal error, a warning for exactly the no-data tickers and a report
for exactly the rest; but a computation failure in one ticker aborts the
whole remaining batch with a single batch-level error. -/
theorem C1_batch_partial_failure :
    (∀ (fetch : List Char → List (ℤ × ℚ)) (years : ℚ) (ts : List (List Char)),
      (∀ t ∈ ts, fetch t ≠ [] → (computeMetrics (fetch t) years).isOk = true) →
      (runBatch fetch years ts).fatalError = none ∧
      (runBatch fetch years ts).warnings = ts.filter (fun t => (fetch t).isEmpty) ∧
      (runBatch fetch years ts).reports.map Prod.fst =
        ts.filter (fun t => !(fetch t).isEmpty)) ∧
    (∀ (fetch : List Char → List (ℤ × ℚ)) (years : ℚ) (t : List Char)
      (ts : List (List Char)) (e : PyErr), fetch t ≠ [] →
      computeMetrics (fetch t) years = .error e →
      runBatch fetch years (t :: ts) = ⟨[], [], some e⟩) :=
  ⟨fun fetch years ts h => runBatch_no_failures fetch years ts h,
   fun fetch years t ts e h1 h2 => runBatch_abort fetch years t ts e h1 h2⟩

/-- Fetch map for the witness batch: ticker `N` has no data, ticker `B` has
data that computes cleanly. -/
def fetchW : List Char → List (ℤ × ℚ) := fun t =>
  if t = ['B'] then [(0, 100), (1, 110)] else []

/-- Witness for C1 (amended) at a concrete batch: one no-data ticker followed
by one good ticker runs to completion. -/
theorem C1_batch_partial_failure_witness :
    (runBatch fetchW 2 [['N'], ['B']]).fatalError = none ∧
    (runBatch fetchW 2 [['N'], ['B']]).warnings =
      [['N'], ['B']].filter (fun t => (fetchW t).isEmpty) ∧
    (runBatch fetchW 2 [['N'], ['B']]).reports.map Prod.fst =
      [['N'], ['B']].filter (fun t => !(fetchW t).isEmpty) :=
  C1_batch_partial_failure.1 fetchW 2 [['N'], ['B']] (by
    intro t ht hne
    rcases List.mem_cons.mp ht with rfl | ht
    · exact absurd (show fetchW ['N'] = [] by simp [fetchW]) hne
    · rcases List.mem_cons.mp ht with rfl | ht
      · rw [show fetchW ['B'] = [(0, 100), (1, 110)] by simp [fetchW]]
        exact computeMetrics_recovered_eval
      · simp at ht)

/-- C2: a price series that never returns to the running maximum recorded at
the max-drawdown date leaves `recovery_date = None` (absence is indeed the
computed state), but building the ticker's results dict then evaluates
`None / 30.22` and raises `TypeError` instead of succeeding — in general the
dict construction fails whenever the recovery period is absent. -/
theorem C2_absent_recovery_crashes :
    recoveryDateOf [(0, 100), (1, 80)] 1 100 = none ∧
    computeMetrics [(0, 100), (1, 80)] 2 = .error .typeError ∧
    (∀ (c v : ℝ) (md : ℚ), buildResults c v md none = .error .typeError) :=
  ⟨computeMetrics_unrecovered_eval.1, computeMetrics_unrecovered_eval.2,
   fun _ _ _ => rfl⟩

/-- C3 counterexample: on the two-point price series `[100, 110]` the
output of `pct_change` has length `2`, not `2 - 1`, and it does carry an
entry (the undefined `NaN`) at the first date. -/
theorem C3_counterexample :
    (pct_change [100, 110]).length ≠ 2 - 1 ∧
    (pct_change [100, 110])[0]? = some none := by
  constructor
  · norm_num [pct_change]
  · rfl

/-- C3 (amended): for a price series of length `n ≥ 2` with positive prices,
`pct_change` produces a series of the same length `n` whose first entry is
undefined (`NaN`) and whose entry at each later index `i + 1` is
`(p[i+1] - p[i]) / p[i]`; the defined entries thus number `n - 1`. -/
theorem C3_pct_change_shape (ps : List ℚ) (h2 : 2 ≤ ps.length)
    (hpos : ∀ x ∈ ps, 0 < x) :
    (pct_change ps).length = ps.length ∧
    (pct_change ps)[0]? = some none ∧
    ∀ i a b, ps[i]? = some a → ps[i + 1]? = some b →
      (pct_change ps)[i + 1]? = some (some ((b - a) / a)) := by
  cases ps with
  | nil => simp at h2
  | cons p rest =>
    refine ⟨?_, by simp [pct_change], ?_⟩
    · simp only [pct_change, List.length_cons, List.length_map, List.length_zipWith]
      omega
    · intro i a b ha hb
      have hapos : 0 < a := hpos a (List.getElem?_mem ha)
      rw [pct_change_getElem? (p :: rest) i a b ha hb]
      have : b / a - 1 = (b - a) / a := by
        field_simp
      rw [this]

/-- Witness for C3 (amended) on the concrete series `[100, 110, 99]`. -/
theorem C3_pct_change_shape_witness :
    (pct_change [100, 110, 99]).length = ([100, 110, 99] : List ℚ).length ∧
    (pct_change [100, 110, 99])[0]? = some none ∧
    ∀ i a b, ([100, 110, 99] : List ℚ)[i]? = some a →
      ([100, 110, 99] : List ℚ)[i + 1]? = some b →
      (pct_change [100, 110, 99])[i + 1]? = some (some ((b - a) / a)) :=
  C3_pct_change_shape [100, 110, 99] (by norm_num) (by norm_num)

/-- C4 counterexample: `years = -1` satisfies `years ≤ 0`, yet `computeCAGR`
does not fail at all — it silently returns the value
`(200/100) ** (1/(-1)) - 1 = -1/2`. -/
theorem C4_counterexample :
    ((-1 : ℚ) ≤ 0) ∧ cagrOf 100 200 (-1) = .ok (-(1 / 2) : ℝ) := by
  refine ⟨by norm_num, ?_⟩
  norm_num [cagrOf]

/-- C4 (amended): `computeCAGR` performs no range validation and has no
distinct error kind: zero elapsed years raises an untyped
`ZeroDivisionError` from `1 / years` (swallowed by the batch-wide handler);
a zero first price does not fail at all — the numpy float64 division yields
an IEEE infinity with only a RuntimeWarning, so some value is returned; and
a negative elapsed time or negative first price silently produces the
formula value with no error. -/
theorem C4_no_range_validation :
    (∀ s e : ℚ, cagrOf s e 0 = .error .zeroDivision) ∧
    (∀ s e y : ℚ, y ≠ 0 → ∃ v, cagrOf s e y = .ok v) ∧
    (∀ s e y : ℚ, s ≠ 0 → y ≠ 0 →
      cagrOf s e y = .ok (((e / s : ℚ) : ℝ) ^ ((1 : ℝ) / (y : ℝ)) - 1)) :=
  ⟨fun s e => by simp [cagrOf],
   fun s e y hy =>
     ⟨((e / s : ℚ) : ℝ) ^ ((1 : ℝ) / (y : ℝ)) - 1, by simp [cagrOf, hy]⟩,
   fun s e y hs hy => by simp [cagrOf, hy]⟩

/-- Witness for C4 (amended): at `years = -2 ≤ 0` with positive prices the
result is an `ok` value, not an error. -/
theorem C4_no_range_validation_witness :
    cagrOf 100 200 (-2) =
      .ok (((200 / 100 : ℚ) : ℝ) ^ ((1 : ℝ) / ((-2 : ℚ) : ℝ)) - 1) :=
  C4_no_range_validation.2.2 100 200 (-2) (by norm_num) (by norm_num)

/-- C5: with a positive first price and positive elapsed years, `computeCAGR`
returns `(lastPrice/firstPrice) ** (1/years) - 1` with
`years = seconds / (365.25 * 86400)`; in particular prices `100, 200` over
exactly two years (`63115200` seconds) give `sqrt 2 - 1`. -/
theorem C5_cagr_formula :
    (∀ firstP lastP secs : ℚ, 0 < firstP → 0 < yearsOf secs →
      cagrOf firstP lastP (yearsOf secs) =
        .ok (((lastP / firstP : ℚ) : ℝ) ^
          ((1 : ℝ) / ((yearsOf secs : ℚ) : ℝ)) - 1)) ∧
    yearsOf 63115200 = 2 ∧
    cagrOf 100 200 (yearsOf 63115200) = .ok (Real.sqrt 2 - 1) := by
  refine ⟨fun fp lp secs hfp hy => by simp [cagrOf, ne_of_gt hfp, ne_of_gt hy], ?_, ?_⟩
  · norm_num [yearsOf]
  · norm_num [cagrOf, yearsOf]
    rw [show ((1 : ℝ) / 2) = (1 / 2 : ℝ) by norm_num, ← Real.sqrt_eq_rpow]

/-- Witness for C5 at prices `100, 400` over two years. -/
theorem C5_cagr_formula_witness :
    cagrOf 100 400 (yearsOf 63115200) =
      .ok (((400 / 100 : ℚ) : ℝ) ^
        ((1 : ℝ) / ((yearsOf 63115200 : ℚ) : ℝ)) - 1) :=
  C5_cagr_formula.1 100 400 63115200 (by norm_num) (by norm_num [yearsOf])

/-- C6: `computeMaxDrawdown` (the `min`/`idxmin` pair) returns a global
minimum of the drawdown series located at its first occurrence — everything
strictly before the returned entry is strictly larger — and on a
monotonically non-decreasing positive price series the returned max drawdown
value is `0`. -/
theorem C6_max_drawdown_argmin :
    (∀ (l : List (ℤ × ℚ)) (p : ℤ × ℚ), seriesIdxmin l = some p →
      (∀ q ∈ l, p.2 ≤ q.2) ∧
      ∃ l₁ l₂, l = l₁ ++ p :: l₂ ∧ ∀ q ∈ l₁, p.2 < q.2) ∧
    (∀ (ps : List (ℤ × ℚ)) (p : ℤ × ℚ),
      List.Chain' (· ≤ ·) (ps.map Prod.snd) →
      (∀ v ∈ ps.map Prod.snd, 0 < v) →
      seriesIdxmin (drawdownSeries ps) = some p → p.2 = 0) := by
  refine ⟨seriesIdxmin_spec, ?_⟩
  intro ps p hchain hpos h
  obtain ⟨hmin, l₁, l₂, heq, hlt⟩ := seriesIdxmin_spec _ _ h
  have hp_mem : p ∈ drawdownSeries ps := by rw [heq]; simp
  have hdd : p.2 ∈ drawdownList (ps.map Prod.snd) := (List.of_mem_zip hp_mem).2
  exact drawdownList_of_chain _ hchain hpos _ hdd

/-- Witness for C6 at the concrete drawdown series `[(0, 0), (1, -1)]`, whose
minimum `-1` sits at date `1`. -/
theorem C6_max_drawdown_argmin_witness :
    (∀ q ∈ [((0 : ℤ), (0 : ℚ)), (1, -1)], ((1 : ℤ), (-1 : ℚ)).2 ≤ q.2) ∧
    ∃ l₁ l₂, [((0 : ℤ), (0 : ℚ)), (1, -1)] = l₁ ++ ((1 : ℤ), (-1 : ℚ)) :: l₂ ∧
      ∀ q ∈ l₁, ((1 : ℤ), (-1 : ℚ)).2 < q.2 :=
  C6_max_drawdown_argmin.1 [(0, 0), (1, -1)] (1, -1)
    (by norm_num [seriesIdxmin, argminAux])

/-- C7: on a non-empty positive price series every element of the drawdown
series `price / runningMax - 1` is `≤ 0`, and the element at the first index
is exactly `0`. -/
theorem C7_drawdown_nonpositive (vals : List ℚ) (hne : vals ≠ [])
    (hpos : ∀ x ∈ vals, 0 < x) :
    (∀ d ∈ drawdownList vals, d ≤ 0) ∧ (drawdownList vals)[0]? = some 0 := by
  cases vals with
  | nil => exact absurd rfl hne
  | cons x xs =>
    have hx : 0 < x := hpos x (by simp)
    constructor
    · intro d hd
      rw [drawdownList] at hd
      simp only [cummax, List.zipWith_cons_cons, List.mem_cons] at hd
      rcases hd with rfl | hd
      · rw [div_self (ne_of_gt hx)]
        norm_num
      · exact zipWith_cummaxAux_nonpos xs x hx
          (fun y hy => hpos y (List.mem_cons_of_mem _ hy)) d hd
    · simp [drawdownList, cummax, div_self (ne_of_gt hx)]

/-- Witness for C7 at the concrete price series `[100, 120, 90, 80, 130]`. -/
theorem C7_drawdown_nonpositive_witness :
    (∀ d ∈ drawdownList [100, 120, 90, 80, 130], d ≤ 0) ∧
    (drawdownList [100, 120, 90, 80, 130])[0]? = some 0 :=
  C7_drawdown_nonpositive [100, 120, 90, 80, 130] (by simp) (by norm_num)

/-- C8: whenever the recovery scan finds a date, that date is the first one
at or after the max-drawdown date whose price reaches the threshold (the
running maximum recorded at the max-drawdown date): every earlier scanned row
is below the threshold.  On the spec's example `[100, 120, 90, 80, 130]` on
days `0..4` the max drawdown is `80/120 - 1 = -1/3` at day `3`, the threshold
is `120`, recovery occurs at day `4` (price `130`), and the period is `1`
day. -/
theorem C8_recovery_scan :
    (∀ (ps : List (ℤ × ℚ)) (dd : ℤ) (thr : ℚ) (d : ℤ),
      recoveryDateOf ps dd thr = some d →
      ∃ (q : ℤ × ℚ) (l₁ l₂ : List (ℤ × ℚ)),
        ps.filter (fun r => dd ≤ r.1) = l₁ ++ q :: l₂ ∧
        q.1 = d ∧ dd ≤ q.1 ∧ thr ≤ q.2 ∧
        ∀ r ∈ l₁, dd ≤ r.1 ∧ r.2 < thr) ∧
    (seriesIdxmin (drawdownSeries [(0, 100), (1, 120), (2, 90), (3, 80), (4, 130)]) =
        some (3, -(1 / 3)) ∧
      seriesLookup (([(0 : ℤ), 1, 2, 3, 4]).zip (cummax [100, 120, 90, 80, 130])) 3 =
        some 120 ∧
      recoveryDateOf [(0, 100), (1, 120), (2, 90), (3, 80), (4, 130)] 3 120 = some 4 ∧
      (recoveryDateOf [(0, 100), (1, 120), (2, 90), (3, 80), (4, 130)] 3 120).map
        (fun r => r - 3) = some 1) := by
  constructor
  · intro ps dd thr d h
    rw [recoveryDateOf] at h
    obtain ⟨q, hq, hqd⟩ := Option.map_eq_some'.mp h
    obtain ⟨l₁, l₂, heq, hfail, hpass⟩ := find?_split _ _ _ hq
    refine ⟨q, l₁, l₂, heq, hqd, ?_, by simpa using hpass, ?_⟩
    · have hqf : q ∈ ps.filter (fun r => dd ≤ r.1) := by rw [heq]; simp
      simpa using List.of_mem_filter hqf
    · intro r hr
      have hrf : r ∈ ps.filter (fun r => dd ≤ r.1) := by
        rw [heq]
        exact List.mem_append_left _ hr
      refine ⟨by simpa using List.of_mem_filter hrf, ?_⟩
      have h2 : ¬ thr ≤ r.2 := by simpa using hfail r hr
      exact not_le.mp h2
  · refine ⟨?_, ?_, ?_, ?_⟩ <;>
      norm_num [seriesIdxmin, drawdownSeries, drawdownList, cummax, cummaxAux,
        argminAux, seriesLookup, List.find?, recoveryDateOf, List.filter]

/-- Witness for C8 at the spec example: the scan from day `3` with threshold
`120` finds day `4` first. -/
theorem C8_recovery_scan_witness :
    ∃ (q : ℤ × ℚ) (l₁ l₂ : List (ℤ × ℚ)),
      ([(0, 100), (1, 120), (2, 90), (3, 80), (4, 130)] : List (ℤ × ℚ)).filter
          (fun r => (3 : ℤ) ≤ r.1) = l₁ ++ q :: l₂ ∧
      q.1 = 4 ∧ (3 : ℤ) ≤ q.1 ∧ (120 : ℚ) ≤ q.2 ∧
      ∀ r ∈ l₁, (3 : ℤ) ≤ r.1 ∧ r.2 < 120 :=
  C8_recovery_scan.1 [(0, 100), (1, 120), (2, 90), (3, 80), (4, 130)] 3 120 4
    (by norm_num [recoveryDateOf, List.filter, List.find?])

/-- C9: on a return series with at least one defined (non-`NaN`) entry, the
source's annualized volatility `np.std(returns) * sqrt(252)` equals the
population standard deviation (divisor `n`, not `n - 1`) of the defined
returns times `sqrt 252`, with the population variance written independently
as mean of squares minus squared mean. -/
theorem C9_volatility_population_std (rs : List (Option ℚ))
    (h : rs.reduceOption ≠ []) :
    annualVolatility rs = spec_annualizedVolatility rs.reduceOption := by
  unfold annualVolatility spec_annualizedVolatility np_std
  rw [popVariance_eq_spec _ h]

/-- Witness for C9 on a series with one `NaN` and two defined returns. -/
theorem C9_volatility_population_std_witness :
    annualVolatility [none, some (3 / 10), some (-(1 / 10))] =
      spec_annualizedVolatility
        ([none, some (3 / 10), some (-(1 / 10))] : List (Option ℚ)).reduceOption :=
  C9_volatility_population_std _ (by simp [List.reduceOption])

/-- C10: any empty token among the comma-separated, stripped tickers is
accepted by the character-set check (vacuously true on the empty string), so
it is returned among the valid tickers and never warned about. -/
theorem C10_empty_token_accepted (input : List Char)
    (h : [] ∈ tickerTokens input) :
    [] ∈ (process_ticker_input input).1 ∧ [] ∉ (process_ticker_input input).2 := by
  constructor
  · exact List.mem_filter.mpr ⟨h, rfl⟩
  · intro hc
    have := List.of_mem_filter hc
    simp [isValidTicker] at this

/-- Witness for C10: the input `",,"` yields three empty tokens; the empty
token is returned as valid and not warned about. -/
theorem C10_empty_token_accepted_witness :
    ([] ∈ tickerTokens (",,".data)) ∧
    [] ∈ (process_ticker_input (",,".data)).1 ∧
    [] ∉ (process_ticker_input (",,".data)).2 :=
  ⟨by decide, C10_empty_token_accepted (",,".data) (by decide)⟩
